import Mathlib

/-!
# Shallow embedding of the in-memory order store (simple-commerce-api)

The Go source (`model.go`, `service_impl.go`) implements an in-memory,
lock-protected order store: idempotent `Create`, `Get`, filtered/sorted/
paginated `List`, and (stubbed in the source, reconstructed in §4.3–4.5 of
the spec) `UpdatedStatus` and `Delete`.

Modelling choices:
* `time.Time` is embedded as `Int` (an instant on a linear timeline);
  Go's `t.Before u` / `t.After u` are the strict comparisons `t < u` / `u < t`.
* Go maps (`map[string]Order`, `map[string]string`) are association lists;
  `List.lookup` is map access, `mapInsert` is map assignment.  The order of an
  association list doubles as the (otherwise unspecified) map iteration order.
* Go `int` / `int64` are embedded as `Int`.  No code path of this store
  branches on overflow or relies on wraparound, so machine truncation is not
  modelled.
* `context.Context` is embedded as `Option CtxErr`: `none` is a live context,
  `some e` a context whose `ctx.Err()` already returns the cancellation
  error `e`.
* Each operation is a pure function from the pre-state (plus the inputs that
  Go obtains effectfully: the fresh id from `newID()`, the instant from
  `time.Now()`) to the Go result together with the post-state.  Locking
  disappears in this sequential embedding: a critical section is one
  atomic step.
* `sort.Slice(filtered, less)` with `less i j := filtered[i].CreatedAt.After
  (filtered[j].CreatedAt)` is embedded as insertion sort by the reflexive
  closure of that comparator (`b.createdAt ≤ a.createdAt`).  Go's sort only
  promises the result is sorted w.r.t. `less`; on slices shorter than 12
  elements Go's `sort.Slice` literally runs insertion sort, which is stable,
  so this model agrees with the implementation on the concrete inputs used
  below, and every sortedness statement proved through it holds for any
  comparator-correct sort.
-/

/-- Go `OrderStatus` is a string type with five recognised constants
(`model.go`); it is embedded as the inductive of those five values. -/
inductive OrderStatus where
  | pending
  | confirmed
  | shipped
  | delivered
  | canceled
deriving DecidableEq, Repr

/-- `OrderLine` from `model.go`. `Quantity` is a Go `int`,
`UnitPriceCents`/`LineTotalCents` are `int64`; both are embedded as `Int`. -/
structure OrderLine where
  productId : String
  quantity : Int
  unitPriceCents : Int
  lineTotalCents : Int
deriving DecidableEq, Repr

/-- `Order` from `model.go`.  `Attributes` (a Go string map) is an
association list; `DeletedAt *time.Time` is an `Option Int`. -/
structure Order where
  id : String
  customerId : String
  currency : String
  lines : List OrderLine
  attributes : List (String × String)
  totalCents : Int
  status : OrderStatus
  version : Int
  createdAt : Int
  updatedAt : Int
  deletedAt : Option Int
deriving DecidableEq, Repr

/-- The two errors Go's `ctx.Err()` can produce. -/
inductive CtxErr where
  | canceled
  | deadlineExceeded
deriving DecidableEq, Repr

/-- A `context.Context` as this store observes it: `none` if live,
`some e` if `ctx.Err()` already returns `e`. -/
abbrev Ctx := Option CtxErr

/-- The error vocabulary of `service_impl.go` (`ErrNotFound`, `ErrConflict`,
`ErrInvalidInput`, `ErrInvalidState`, `ErrIdempotency`) plus the context
errors that the operations pass through. -/
inductive Err where
  | notFound
  | conflict
  | invalidInput
  | invalidState
  | idempotency
  | ctxDone (e : CtxErr)
deriving DecidableEq, Repr

/-- The store state: the primary table `orders : map[string]Order` and the
secondary idempotency index `idempo : map[string]string`, both as
association lists.  The `sync.RWMutex` has no sequential content. -/
structure InMemoryService where
  orders : List (String × Order)
  idempo : List (String × String)
deriving DecidableEq, Repr

/-- Go map assignment `m[k] = v`: replace the binding of `k` if present,
otherwise add it. -/
def mapInsert (k : String) (v : α) : List (String × α) → List (String × α)
  | [] => [(k, v)]
  | (k', v') :: rest =>
    if k' = k then (k, v) :: rest else (k', v') :: mapInsert k v rest

/-- `cloneMap` from `service_impl.go`: a fresh map with the same entries
(the nil/non-nil distinction of the Go map has no observable content here). -/
def cloneMap (m : List (String × String)) : List (String × String) :=
  m.map (fun kv => (kv.1, kv.2))

/-- `cloneOrder` from `service_impl.go`: field-by-field deep copy. -/
def cloneOrder (o : Order) : Order :=
  { id := o.id
    customerId := o.customerId
    currency := o.currency
    lines := o.lines.map (fun l => l)
    attributes := cloneMap o.attributes
    totalCents := o.totalCents
    status := o.status
    version := o.version
    createdAt := o.createdAt
    updatedAt := o.updatedAt
    deletedAt := o.deletedAt.map (fun t => t) }

/-- `isTransitionAllowed` from `service_impl.go`, verbatim switch. -/
def isTransitionAllowed (fromSt toSt : OrderStatus) : Bool :=
  match fromSt with
  | .pending => toSt = .confirmed || toSt = .canceled
  | .confirmed => toSt = .shipped || toSt = .canceled
  | .shipped => toSt = .delivered
  | _ => false

/-- `isValidStatus` from `service_impl.go`; on the embedded status type every
value is one of the five recognised constants. -/
def isValidStatus (s : OrderStatus) : Bool :=
  match s with
  | .pending | .confirmed | .shipped | .delivered | .canceled => true

/-- The body of `Create`'s per-line loop (`service_impl.go`): validate each
line (`Quantity <= 0 || UnitPriceCents < 0` fails), overwrite its
`LineTotalCents` with `Quantity * UnitPriceCents`, and accumulate the order
total.  Returns `none` on the first invalid line, as the loop returns
`ErrInvalidInput` there. -/
def buildLines : List OrderLine → Option (List OrderLine × Int)
  | [] => some ([], 0)
  | l :: rest =>
    if l.quantity ≤ 0 ∨ l.unitPriceCents < 0 then none
    else
      match buildLines rest with
      | none => none
      | some (ls, t) =>
        some ({ l with lineTotalCents := l.quantity * l.unitPriceCents } :: ls,
              l.quantity * l.unitPriceCents + t)

/-- `Create` from `service_impl.go`.  `freshId` is the value `newID()`
produces and `now` the value of `time.Now().UTC()`.  Returns the Go result
(`(Order, bool, error)` as `Except Err (Order × Bool)`) and the post-state. -/
def InMemoryService.Create (ctx : Ctx) (s : InMemoryService) (o : Order)
    (idempotencyKey : String) (freshId : String) (now : Int) :
    Except Err (Order × Bool) × InMemoryService :=
  match ctx with
  | some e => (.error (.ctxDone e), s)
  | none =>
    -- 1. idempotency fast path (under the read lock)
    let fast : Option (Except Err (Order × Bool)) :=
      if idempotencyKey = "" then none
      else
        match s.idempo.lookup idempotencyKey with
        | none => none
        | some orderID =>
          match s.orders.lookup orderID with
          | none => some (.error .idempotency)
          | some existing => some (.ok (cloneOrder existing, true))
    match fast with
    | some r => (r, s)
    | none =>
      -- 2. validate input
      if o.customerId = "" ∨ o.currency = "" ∨ o.lines.length = 0 then
        (.error .invalidInput, s)
      else
        -- 3. build, enrich, calculate (may still fail on a bad line)
        match buildLines o.lines with
        | none => (.error .invalidInput, s)
        | some (ls, total) =>
          let newOrder : Order :=
            { id := freshId
              customerId := o.customerId
              currency := o.currency
              lines := ls
              attributes := cloneMap o.attributes
              totalCents := total
              status := .pending
              version := 1
              createdAt := now
              updatedAt := now
              deletedAt := none }
          -- 4. critical section: double-check idempotency, then save
          let recheck : Option (Except Err (Order × Bool)) :=
            if idempotencyKey = "" then none
            else
              match s.idempo.lookup idempotencyKey with
              | none => none
              | some orderID =>
                match s.orders.lookup orderID with
                | some existing => some (.ok (cloneOrder existing, true))
                | none => some (.error .idempotency)
          match recheck with
          | some r => (r, s)
          | none =>
            let s' : InMemoryService :=
              { orders := mapInsert newOrder.id newOrder s.orders
                idempo :=
                  if idempotencyKey ≠ "" then
                    mapInsert idempotencyKey newOrder.id s.idempo
                  else s.idempo }
            (.ok (cloneOrder newOrder, false), s')

/-- `Get` from `src/unnamed/part_000`: read-only lookup with soft-delete
visibility. -/
def InMemoryService.Get (ctx : Ctx) (s : InMemoryService) (id : String)
    (includeDeleted : Bool) : Except Err Order :=
  match ctx with
  | some e => .error (.ctxDone e)
  | none =>
    match s.orders.lookup id with
    | none => .error .notFound
    | some order =>
      if order.deletedAt.isSome && !includeDeleted then .error .notFound
      else .ok (cloneOrder order)

/-- `ListOptions` from `model.go`: optional filters plus 1-based pagination. -/
structure ListOptions where
  status : Option OrderStatus
  customerId : Option String
  createFrom : Option Int
  createTo : Option Int
  page : Int
  pageSize : Int
deriving DecidableEq, Repr

/-- `ListResult[Order]` from `model.go`. -/
structure ListResult where
  items : List Order
  page : Int
  pageSize : Int
  totalItems : Int
  totalPages : Int
deriving DecidableEq, Repr

/-- The filter chain of `List`'s loop (`src/unnamed/part_000`): skip
soft-deleted orders, then apply the optional status / customer /
created-from (`CreatedAt.Before`) / created-to (`CreatedAt.After`) filters. -/
def keepOrder (opts : ListOptions) (o : Order) : Bool :=
  !o.deletedAt.isSome &&
  (match opts.status with | none => true | some st => o.status = st) &&
  (match opts.customerId with | none => true | some c => o.customerId = c) &&
  (match opts.createFrom with | none => true | some t => !(o.createdAt < t)) &&
  (match opts.createTo with | none => true | some t => !(t < o.createdAt))

/-- The comparator handed to the sort: the reflexive closure of
`a.CreatedAt.After(b.CreatedAt)`, i.e. newest first. -/
def newerFirst (a b : Order) : Bool :=
  b.createdAt ≤ a.createdAt

/-- Insert `a` before the first element it should precede (newest first). -/
def orderedInsertDesc (a : Order) : List Order → List Order
  | [] => [a]
  | b :: l => if newerFirst a b then a :: b :: l else b :: orderedInsertDesc a l

/-- Stable newest-first sort: the model of
`sort.Slice(filtered, CreatedAt.After)`. -/
def sortNewestFirst : List Order → List Order
  | [] => []
  | a :: l => orderedInsertDesc a (sortNewestFirst l)

/-- `List` from `src/unnamed/part_000`: snapshot the table (the association
list order models the map iteration order), filter, sort newest-first,
normalise pagination, slice, and defensively copy.  Note the early return
for an out-of-range page builds a result with only `Items` and `TotalItems`
set — `Page`, `PageSize`, `TotalPages` stay at their zero values exactly as
in the Go struct literal. -/
def InMemoryService.List (ctx : Ctx) (s : InMemoryService) (opts : ListOptions) :
    Except Err ListResult :=
  match ctx with
  | some e => .error (.ctxDone e)
  | none =>
    let allOrders := s.orders.map Prod.snd
    let filtered := allOrders.filter (keepOrder opts)
    let sorted := sortNewestFirst filtered
    let totalItems : Int := sorted.length
    let page := if opts.page ≤ 0 then 1 else opts.page
    let pageSize := if opts.pageSize ≤ 0 then 10 else opts.pageSize
    let start := (page - 1) * pageSize
    if start ≥ totalItems then
      .ok { items := [], page := 0, pageSize := 0,
            totalItems := totalItems, totalPages := 0 }
    else
      let stop := min (start + pageSize) totalItems
      let pageItems := (sorted.drop start.toNat).take (stop - start).toNat
      .ok { items := pageItems.map cloneOrder
            page := page
            pageSize := pageSize
            totalItems := totalItems
            totalPages := (totalItems + pageSize - 1) / pageSize }

/-- Modelled from the spec: the source's `UpdatedStatus` is an unimplemented
stub (`return Order{}, nil`); §4.3 of the spec reconstructs the intended
algorithm from the helpers (`isTransitionAllowed`, `isValidStatus`) and the
error vocabulary (`ErrConflict`, `ErrInvalidState`) present in the source.
Under the exclusive lock: not-found if absent or soft-deleted, invalid-input
for an unrecognised status, conflict if a supplied expected version differs
from the current one, invalid-state for a disallowed edge; otherwise set the
status, increment the version by one, refresh `updatedAt`, persist, and
return an updated copy. -/
def InMemoryService.UpdatedStatus (ctx : Ctx) (s : InMemoryService) (id : String)
    (newStatus : OrderStatus) (expectedVersion : Option Int) (now : Int) :
    Except Err Order × InMemoryService :=
  match ctx with
  | some e => (.error (.ctxDone e), s)
  | none =>
    match s.orders.lookup id with
    | none => (.error .notFound, s)
    | some order =>
      if order.deletedAt.isSome then (.error .notFound, s)
      else if !isValidStatus newStatus then (.error .invalidInput, s)
      else
        let versionOk :=
          match expectedVersion with
          | none => true
          | some v => v = order.version
        if !versionOk then (.error .conflict, s)
        else if !isTransitionAllowed order.status newStatus then
          (.error .invalidState, s)
        else
          let updated : Order :=
            { order with status := newStatus, version := order.version + 1,
                         updatedAt := now }
          (.ok (cloneOrder updated),
           { s with orders := mapInsert id updated s.orders })

/-- Modelled from the spec: `Delete` appears only in the `OrderService`
interface; §4.5 of the spec reconstructs it.  Exclusive-lock write:
not-found if absent or already soft-deleted, otherwise set `deletedAt` to
the current time (the idempotency index is left untouched). -/
def InMemoryService.Delete (ctx : Ctx) (s : InMemoryService) (id : String)
    (now : Int) : Except Err Unit × InMemoryService :=
  match ctx with
  | some e => (.error (.ctxDone e), s)
  | none =>
    match s.orders.lookup id with
    | none => (.error .notFound, s)
    | some order =>
      if order.deletedAt.isSome then (.error .notFound, s)
      else (.ok (),
            { s with orders := mapInsert id { order with deletedAt := some now } s.orders })

/-- The per-line enrichment of `Create`: overwrite `lineTotalCents` with the
recomputed product, ignoring any caller-supplied value. -/
def enrichLine (l : OrderLine) : OrderLine :=
  { l with lineTotalCents := l.quantity * l.unitPriceCents }

/-- The order that `Create` builds and commits on the success path, written
out explicitly (step 3 of the protocol with `buildLines` already resolved). -/
def createdOrder (o : Order) (freshId : String) (now : Int) : Order :=
  { id := freshId
    customerId := o.customerId
    currency := o.currency
    lines := o.lines.map enrichLine
    attributes := cloneMap o.attributes
    totalCents := (o.lines.map (fun l => l.quantity * l.unitPriceCents)).sum
    status := .pending
    version := 1
    createdAt := now
    updatedAt := now
    deletedAt := none }

/-- The commit step of an accepted transition (§4.3 step 5): new status,
version incremented by one, `updatedAt` refreshed. -/
def applyStatus (order : Order) (st : OrderStatus) (now : Int) : Order :=
  { order with status := st, version := order.version + 1, updatedAt := now }

/-! ## Concrete sample data used by witnesses and counterexamples -/

/-- The empty store. -/
def emptyState : InMemoryService := { orders := [], idempo := [] }

/-- A concrete store for the fast-path witnesses: one order `"o1"`, and the
key `"k1"` indexed to it; the key `"dangling"` indexed to a missing id. -/
def wOrder : Order :=
  { id := "o1", customerId := "c1", currency := "USD"
    lines := [{ productId := "p1", quantity := 2, unitPriceCents := 500,
                lineTotalCents := 1000 }]
    attributes := [], totalCents := 1000, status := .pending, version := 1
    createdAt := 0, updatedAt := 0, deletedAt := none }

def wState : InMemoryService :=
  { orders := [("o1", wOrder)]
    idempo := [("k1", "o1"), ("dangling", "ghost")] }

/-- A valid skeleton whose caller-supplied line total (999) is wrong on
purpose, so the recomputation is observable. -/
def wSkeleton : Order :=
  { id := "", customerId := "c1", currency := "USD"
    lines := [{ productId := "p1", quantity := 2, unitPriceCents := 500,
                lineTotalCents := 999 }]
    attributes := [], totalCents := 0, status := .pending, version := 0
    createdAt := 0, updatedAt := 0, deletedAt := none }

/-- A skeleton with an empty customer id (and also a non-positive quantity),
violating validation twice over. -/
def badSkeleton : Order :=
  { id := "", customerId := "", currency := "USD"
    lines := [{ productId := "p1", quantity := 0, unitPriceCents := 500,
                lineTotalCents := 0 }]
    attributes := [], totalCents := 0, status := .pending, version := 0
    createdAt := 0, updatedAt := 0, deletedAt := none }

/-- Two surviving orders with the same `createdAt`; the one with the larger
id sits earlier in the table snapshot. -/
def cexOrderA : Order :=
  { id := "a", customerId := "c1", currency := "USD"
    lines := [{ productId := "p1", quantity := 1, unitPriceCents := 100,
                lineTotalCents := 100 }]
    attributes := [], totalCents := 100, status := .pending, version := 1
    createdAt := 5, updatedAt := 5, deletedAt := none }

def cexOrderB : Order :=
  { id := "b", customerId := "c1", currency := "USD"
    lines := [{ productId := "p2", quantity := 1, unitPriceCents := 200,
                lineTotalCents := 200 }]
    attributes := [], totalCents := 200, status := .pending, version := 1
    createdAt := 5, updatedAt := 5, deletedAt := none }

def cexState : InMemoryService :=
  { orders := [("b", cexOrderB), ("a", cexOrderA)], idempo := [] }

def cexOpts : ListOptions :=
  { status := none, customerId := none, createFrom := none, createTo := none
    page := 1, pageSize := 10 }

def cexRes : ListResult :=
  { items := [cexOrderB, cexOrderA], page := 1, pageSize := 10,
    totalItems := 2, totalPages := 1 }

/-- A soft-deleted order and a store holding it. -/
def delOrder : Order :=
  { id := "d1", customerId := "c2", currency := "EUR"
    lines := [{ productId := "p3", quantity := 1, unitPriceCents := 100,
                lineTotalCents := 100 }]
    attributes := [], totalCents := 100, status := .canceled, version := 2
    createdAt := 3, updatedAt := 4, deletedAt := some 8 }

def delState : InMemoryService :=
  { orders := [("d1", delOrder)], idempo := [] }

/-! ## Basic lemmas about the embedding -/

/-- Cloning is the identity on the pure value. -/
theorem cloneMap_eq (m : List (String × String)) : cloneMap m = m := by
  simp [cloneMap]

theorem cloneOrder_eq (o : Order) : cloneOrder o = o := by
  simp [cloneOrder, cloneMap_eq]

theorem lookup_mapInsert_self (k : String) (v : α) (m : List (String × α)) :
    (mapInsert k v m).lookup k = some v := by
  induction m with
  | nil => simp [mapInsert, List.lookup]
  | cons kv rest ih =>
    obtain ⟨k', v'⟩ := kv
    by_cases h : k' = k
    · simp [mapInsert, h, List.lookup]
    · simp only [mapInsert, if_neg h, List.lookup]
      have : (k == k') = false := by
        simp [beq_iff_eq]
        exact fun hkk => h hkk.symm
      simp [this, ih]

theorem lookup_mapInsert_ne (k k' : String) (v : α) (m : List (String × α))
    (h : k' ≠ k) : (mapInsert k v m).lookup k' = m.lookup k' := by
  have hk : (k' == k) = false := beq_eq_false_iff_ne.mpr h
  induction m with
  | nil => simp [mapInsert, List.lookup, hk]
  | cons kv rest ih =>
    obtain ⟨k₀, v₀⟩ := kv
    by_cases h₀ : k₀ = k
    · subst h₀
      simp [mapInsert, List.lookup, hk]
    · simp only [mapInsert, if_neg h₀, List.lookup]
      cases hbe : (k' == k₀) <;> simp [hbe, ih]

theorem buildLines_valid (ls : List OrderLine)
    (h : ∀ l ∈ ls, 0 < l.quantity ∧ 0 ≤ l.unitPriceCents) :
    buildLines ls =
      some (ls.map enrichLine,
            (ls.map (fun l => l.quantity * l.unitPriceCents)).sum) := by
  induction ls with
  | nil => simp [buildLines]
  | cons l rest ih =>
    obtain ⟨hq, hp⟩ := h l (by simp)
    have hrest := ih (fun x hx => h x (by simp [hx]))
    have hguard : ¬(l.quantity ≤ 0 ∨ l.unitPriceCents < 0) := by omega
    simp [buildLines, hguard, hrest, enrichLine]

theorem buildLines_invalid (ls : List OrderLine)
    (h : ∃ l ∈ ls, l.quantity ≤ 0 ∨ l.unitPriceCents < 0) :
    buildLines ls = none := by
  induction ls with
  | nil => simp at h
  | cons l rest ih =>
    by_cases hl : l.quantity ≤ 0 ∨ l.unitPriceCents < 0
    · simp [buildLines, hl]
    · have : ∃ x ∈ rest, x.quantity ≤ 0 ∨ x.unitPriceCents < 0 := by
        rcases h with ⟨x, hx, hbad⟩
        rcases List.mem_cons.mp hx with rfl | hx'
        · exact absurd hbad hl
        · exact ⟨x, hx', hbad⟩
      simp [buildLines, hl, ih this]

/-! ## C1: idempotency fast path -/

/-- C1.  For every store state and non-empty idempotency key already present
in the secondary index: if the indexed order id resolves to an existing
order, `Create` returns a copy of that order with `reused = true` and leaves
both maps unchanged; if it does not resolve, `Create` fails with the
internal-consistency error `ErrIdempotency`, which is distinct from
`ErrNotFound`. -/
theorem create_idempotent_fast_path (s : InMemoryService) (o : Order)
    (key freshId : String) (now : Int) (oid : String)
    (hkey : key ≠ "") (hidx : s.idempo.lookup key = some oid) :
    (∀ existing, s.orders.lookup oid = some existing →
        s.Create none o key freshId now = (Except.ok (existing, true), s)) ∧
    (s.orders.lookup oid = none →
        s.Create none o key freshId now = (Except.error Err.idempotency, s) ∧
        Err.idempotency ≠ Err.notFound) := by
  constructor
  · intro existing hord
    simp [InMemoryService.Create, hkey, hidx, hord, cloneOrder_eq]
  · intro hord
    refine ⟨?_, by simp⟩
    simp [InMemoryService.Create, hkey, hidx, hord]

theorem create_idempotent_fast_path_witness :
    ("k1" : String) ≠ "" ∧ wState.idempo.lookup "k1" = some "o1" ∧
    wState.orders.lookup "o1" = some wOrder ∧
    wState.Create none wOrder "k1" "fresh" 7 = (Except.ok (wOrder, true), wState) :=
  ⟨by decide, by decide, by decide,
   (create_idempotent_fast_path wState wOrder "k1" "fresh" 7 "o1"
      (by decide) (by decide)).1 wOrder (by decide)⟩

/-! ## C2: successful creation -/

/-- C2.  For every valid order skeleton (non-empty customer and currency,
non-empty lines, each line with positive quantity and non-negative unit
price) and an idempotency key absent from the index, `Create` succeeds with
`reused = false`; the returned order has status PENDING, version 1, every
line total recomputed as quantity × unit price (any caller-supplied line
total is ignored), the aggregate total equal to the sum of the recomputed
line totals; it is inserted into the primary table and the key, when
non-empty, is registered in the index. -/
theorem create_success (s : InMemoryService) (o : Order)
    (key freshId : String) (now : Int)
    (hc : o.customerId ≠ "") (hcur : o.currency ≠ "") (hl : o.lines ≠ [])
    (hlines : ∀ l ∈ o.lines, 0 < l.quantity ∧ 0 ≤ l.unitPriceCents)
    (hkey : s.idempo.lookup key = none) :
    ∃ created s',
      s.Create none o key freshId now = (Except.ok (created, false), s') ∧
      created.status = OrderStatus.pending ∧
      created.version = 1 ∧
      created.lines = o.lines.map enrichLine ∧
      (∀ l ∈ created.lines, l.lineTotalCents = l.quantity * l.unitPriceCents) ∧
      created.totalCents = (created.lines.map OrderLine.lineTotalCents).sum ∧
      s'.orders.lookup freshId = some created ∧
      (key ≠ "" → s'.idempo.lookup key = some freshId) := by
  have hbuild := buildLines_valid o.lines hlines
  have hguard : ¬(o.customerId = "" ∨ o.currency = "" ∨ o.lines.length = 0) := by
    push_neg
    exact ⟨hc, hcur, by simpa using hl⟩
  refine ⟨createdOrder o freshId now,
          { orders := mapInsert freshId (createdOrder o freshId now) s.orders
            idempo := if key ≠ "" then mapInsert key freshId s.idempo
                      else s.idempo },
          ?_, rfl, rfl, rfl, ?_, ?_, ?_, ?_⟩
  · by_cases hk : key = "" <;>
      simp [InMemoryService.Create, hk, hkey, hguard, hbuild, cloneOrder_eq,
            createdOrder, hc, hcur, hl]
  · intro l hmem
    rcases List.mem_map.mp hmem with ⟨l₀, _, rfl⟩
    simp [enrichLine]
  · simp [createdOrder, List.map_map, Function.comp_def, enrichLine]
  · exact lookup_mapInsert_self freshId _ s.orders
  · intro hk
    simp only [if_pos hk]
    exact lookup_mapInsert_self key freshId s.idempo

theorem create_success_witness :
    wSkeleton.customerId ≠ "" ∧ wSkeleton.currency ≠ "" ∧
    wSkeleton.lines ≠ [] ∧
    (∀ l ∈ wSkeleton.lines, 0 < l.quantity ∧ 0 ≤ l.unitPriceCents) ∧
    emptyState.idempo.lookup "k9" = none ∧
    (∃ created s',
      emptyState.Create none wSkeleton "k9" "id1" 5 =
        (Except.ok (created, false), s') ∧
      created.status = OrderStatus.pending ∧
      created.version = 1 ∧
      created.lines = wSkeleton.lines.map enrichLine ∧
      (∀ l ∈ created.lines, l.lineTotalCents = l.quantity * l.unitPriceCents) ∧
      created.totalCents = (created.lines.map OrderLine.lineTotalCents).sum ∧
      s'.orders.lookup "id1" = some created ∧
      (("k9" : String) ≠ "" → s'.idempo.lookup "k9" = some "id1")) :=
  ⟨by decide, by decide, by decide, by decide, by decide,
   create_success emptyState wSkeleton "k9" "id1" 5
     (by decide) (by decide) (by decide) (by decide) (by decide)⟩

/-! ## C3: validation failures -/

/-- C3.  For every skeleton violating a validation rule (empty customer id,
empty currency, empty lines, or some line with non-positive quantity or
negative unit price) whose idempotency key is not in the index, `Create`
fails with the invalid-input error and the store (both maps) is unchanged. -/
theorem create_invalid_input (s : InMemoryService) (o : Order)
    (key freshId : String) (now : Int)
    (hbad : o.customerId = "" ∨ o.currency = "" ∨ o.lines = [] ∨
            ∃ l ∈ o.lines, l.quantity ≤ 0 ∨ l.unitPriceCents < 0)
    (hkey : s.idempo.lookup key = none) :
    s.Create none o key freshId now = (Except.error Err.invalidInput, s) := by
  by_cases hguard : o.customerId = "" ∨ o.currency = "" ∨ o.lines.length = 0
  · rcases hguard with h | h | h
    · by_cases hk : key = "" <;> simp [InMemoryService.Create, hk, hkey, h]
    · by_cases hk : key = "" <;> simp [InMemoryService.Create, hk, hkey, h]
    · have h' : o.lines = [] := List.length_eq_zero.mp h
      by_cases hk : key = "" <;> simp [InMemoryService.Create, hk, hkey, h']
  · have hex : ∃ l ∈ o.lines, l.quantity ≤ 0 ∨ l.unitPriceCents < 0 := by
      push_neg at hguard
      rcases hbad with h | h | h | h
      · exact absurd h hguard.1
      · exact absurd h hguard.2.1
      · exact absurd (by simp [h]) hguard.2.2
      · exact h
    have hbuild := buildLines_invalid o.lines hex
    by_cases hk : key = "" <;>
      simp [InMemoryService.Create, hk, hkey, hguard, hbuild]

theorem create_invalid_input_witness :
    (badSkeleton.customerId = "" ∨ badSkeleton.currency = "" ∨
     badSkeleton.lines = [] ∨
     ∃ l ∈ badSkeleton.lines, l.quantity ≤ 0 ∨ l.unitPriceCents < 0) ∧
    emptyState.idempo.lookup "" = none ∧
    emptyState.Create none badSkeleton "" "id1" 5 =
      (Except.error Err.invalidInput, emptyState) :=
  ⟨by decide, by decide,
   create_invalid_input emptyState badSkeleton "" "id1" 5
     (by decide) (by decide)⟩

/-! ## C10: the reuse fast path precedes validation -/

/-- C10 (implicit).  Because the idempotency fast path runs before input
validation, `Create` with a non-empty key already registered to an existing
order returns that order with `reused = true` even when the supplied
skeleton is invalid; no invalid-input error is produced on the reuse path. -/
theorem create_reuse_skips_validation (s : InMemoryService) (o : Order)
    (key freshId : String) (now : Int) (oid : String) (existing : Order)
    (hkey : key ≠ "") (hidx : s.idempo.lookup key = some oid)
    (hord : s.orders.lookup oid = some existing)
    (_hbad : o.customerId = "" ∨ o.currency = "" ∨ o.lines = [] ∨
            ∃ l ∈ o.lines, l.quantity ≤ 0 ∨ l.unitPriceCents < 0) :
    s.Create none o key freshId now = (Except.ok (existing, true), s) := by
  simp [InMemoryService.Create, hkey, hidx, hord, cloneOrder_eq]

theorem create_reuse_skips_validation_witness :
    ("k1" : String) ≠ "" ∧
    wState.idempo.lookup "k1" = some "o1" ∧
    wState.orders.lookup "o1" = some wOrder ∧
    (badSkeleton.customerId = "" ∨ badSkeleton.currency = "" ∨
     badSkeleton.lines = [] ∨
     ∃ l ∈ badSkeleton.lines, l.quantity ≤ 0 ∨ l.unitPriceCents < 0) ∧
    wState.Create none badSkeleton "k1" "id1" 5 =
      (Except.ok (wOrder, true), wState) :=
  ⟨by decide, by decide, by decide, by decide,
   create_reuse_skips_validation wState badSkeleton "k1" "id1" 5 "o1" wOrder
     (by decide) (by decide) (by decide) (by decide)⟩

/-! ## C9: eager context-cancellation check -/

/-- C9.  Every public operation (`Create`, `Get`, `List`, `UpdatedStatus`,
`Delete`) on an already-cancelled or deadline-expired context fails
immediately with that context's error and leaves the store unchanged. -/
theorem context_cancellation (s : InMemoryService) (e : CtxErr) :
    (∀ o key freshId now,
        s.Create (some e) o key freshId now = (Except.error (Err.ctxDone e), s)) ∧
    (∀ id includeDeleted,
        s.Get (some e) id includeDeleted = Except.error (Err.ctxDone e)) ∧
    (∀ opts, s.List (some e) opts = Except.error (Err.ctxDone e)) ∧
    (∀ id st ev now,
        s.UpdatedStatus (some e) id st ev now = (Except.error (Err.ctxDone e), s)) ∧
    (∀ id now, s.Delete (some e) id now = (Except.error (Err.ctxDone e), s)) :=
  ⟨fun _ _ _ _ => rfl, fun _ _ => rfl, fun _ => rfl,
   fun _ _ _ _ => rfl, fun _ _ => rfl⟩

/-! ## C4 and C5: status transitions (reconstructed per §4.3 of the spec) -/

theorem isValidStatus_eq_true (st : OrderStatus) : isValidStatus st = true := by
  cases st <;> rfl

/-- C4.  On a stored, non-deleted order: a supplied expected version that
differs from the current version makes `UpdatedStatus` fail with the
conflict error and leaves the store (hence the stored version) unchanged;
every accepted transition returns the requested status with version exactly
old + 1 and `updatedAt` refreshed to the current instant, and persists that
updated order. -/
theorem updateStatus_version_discipline (s : InMemoryService) (id : String)
    (order : Order) (st : OrderStatus) (now : Int)
    (hlook : s.orders.lookup id = some order) (hdel : order.deletedAt = none) :
    (∀ v, v ≠ order.version →
        s.UpdatedStatus none id st (some v) now = (Except.error Err.conflict, s)) ∧
    (∀ ev res s', s.UpdatedStatus none id st ev now = (Except.ok res, s') →
        res.version = order.version + 1 ∧ res.updatedAt = now ∧
        res.status = st ∧ s'.orders.lookup id = some res) := by
  have hvalid := isValidStatus_eq_true st
  constructor
  · intro v hv
    simp [InMemoryService.UpdatedStatus, hlook, hdel, hvalid, hv]
  · intro ev res s' h
    have hcase :
        isTransitionAllowed order.status st = true ∧
        (ev = none ∨ ev = some order.version) := by
      cases ev with
      | none =>
        by_cases ht : isTransitionAllowed order.status st
        · exact ⟨ht, Or.inl rfl⟩
        · simp [InMemoryService.UpdatedStatus, hlook, hdel, hvalid,
                Bool.eq_false_iff.mpr ht] at h
      | some v =>
        by_cases hv : v = order.version
        · subst hv
          by_cases ht : isTransitionAllowed order.status st
          · exact ⟨ht, Or.inr rfl⟩
          · simp [InMemoryService.UpdatedStatus, hlook, hdel, hvalid,
                  Bool.eq_false_iff.mpr ht] at h
        · simp [InMemoryService.UpdatedStatus, hlook, hdel, hvalid, hv] at h
    obtain ⟨ht, hev⟩ := hcase
    have hred :
        s.UpdatedStatus none id st ev now =
          (Except.ok (applyStatus order st now),
           { s with orders := mapInsert id (applyStatus order st now) s.orders }) := by
      rcases hev with rfl | rfl <;>
        simp [InMemoryService.UpdatedStatus, applyStatus, hlook, hdel, hvalid,
              ht, cloneOrder_eq]
    rw [hred] at h
    injection h with h1 h2
    injection h1 with h1
    subst h1 h2
    exact ⟨rfl, rfl, rfl, lookup_mapInsert_self id _ s.orders⟩

theorem updateStatus_version_discipline_witness :
    wState.orders.lookup "o1" = some wOrder ∧ wOrder.deletedAt = none ∧
    ((∀ v, v ≠ wOrder.version →
        wState.UpdatedStatus none "o1" OrderStatus.confirmed (some v) 9 =
          (Except.error Err.conflict, wState)) ∧
     (∀ ev res s',
        wState.UpdatedStatus none "o1" OrderStatus.confirmed ev 9 =
          (Except.ok res, s') →
        res.version = wOrder.version + 1 ∧ res.updatedAt = 9 ∧
        res.status = OrderStatus.confirmed ∧ s'.orders.lookup "o1" = some res)) :=
  ⟨by decide, by decide,
   updateStatus_version_discipline wState "o1" wOrder OrderStatus.confirmed 9
     (by decide) (by decide)⟩

/-- C5.  On a stored, non-deleted order, when the version check passes (no
expected version, or the current one), a (current status → target) pair
outside the allowed edge set makes `UpdatedStatus` fail with the
invalid-state error and leaves the store unmodified; moreover
`isTransitionAllowed` returns `true` exactly on the five edges
PENDING→CONFIRMED, PENDING→CANCELED, CONFIRMED→SHIPPED, CONFIRMED→CANCELED,
SHIPPED→DELIVERED, so DELIVERED and CANCELED have no outgoing edges. -/
theorem transition_closure (s : InMemoryService) (id : String) (order : Order)
    (st : OrderStatus) (ev : Option Int) (now : Int)
    (hlook : s.orders.lookup id = some order) (hdel : order.deletedAt = none)
    (hev : ev = none ∨ ev = some order.version)
    (hnot : isTransitionAllowed order.status st = false) :
    s.UpdatedStatus none id st ev now = (Except.error Err.invalidState, s) ∧
    (∀ f t, isTransitionAllowed f t = true ↔
        ((f = OrderStatus.pending ∧
            (t = OrderStatus.confirmed ∨ t = OrderStatus.canceled)) ∨
         (f = OrderStatus.confirmed ∧
            (t = OrderStatus.shipped ∨ t = OrderStatus.canceled)) ∨
         (f = OrderStatus.shipped ∧ t = OrderStatus.delivered))) ∧
    (∀ t, isTransitionAllowed OrderStatus.delivered t = false ∧
          isTransitionAllowed OrderStatus.canceled t = false) := by
  refine ⟨?_, fun f t => by cases f <;> cases t <;> decide,
          fun t => by cases t <;> exact ⟨rfl, rfl⟩⟩
  have hvalid := isValidStatus_eq_true st
  rcases hev with rfl | rfl <;>
    simp [InMemoryService.UpdatedStatus, hlook, hdel, hvalid, hnot]

theorem transition_closure_witness :
    wState.orders.lookup "o1" = some wOrder ∧ wOrder.deletedAt = none ∧
    ((none : Option Int) = none ∨ (none : Option Int) = some wOrder.version) ∧
    isTransitionAllowed wOrder.status OrderStatus.delivered = false ∧
    (wState.UpdatedStatus none "o1" OrderStatus.delivered none 9 =
       (Except.error Err.invalidState, wState) ∧
     (∀ f t, isTransitionAllowed f t = true ↔
        ((f = OrderStatus.pending ∧
            (t = OrderStatus.confirmed ∨ t = OrderStatus.canceled)) ∨
         (f = OrderStatus.confirmed ∧
            (t = OrderStatus.shipped ∨ t = OrderStatus.canceled)) ∨
         (f = OrderStatus.shipped ∧ t = OrderStatus.delivered))) ∧
     (∀ t, isTransitionAllowed OrderStatus.delivered t = false ∧
           isTransitionAllowed OrderStatus.canceled t = false)) :=
  ⟨by decide, by decide, Or.inl rfl, by decide,
   transition_closure wState "o1" wOrder OrderStatus.delivered none 9
     (by decide) (by decide) (Or.inl rfl) (by decide)⟩

/-! ## Sorting lemmas -/

theorem newerFirst_total (a b : Order) :
    newerFirst a b = true ∨ newerFirst b a = true := by
  simp only [newerFirst, decide_eq_true_eq]
  exact Int.le_total b.createdAt a.createdAt

theorem newerFirst_trans {a b c : Order} (h1 : newerFirst a b = true)
    (h2 : newerFirst b c = true) : newerFirst a c = true := by
  simp only [newerFirst, decide_eq_true_eq] at h1 h2 ⊢
  exact le_trans h2 h1

theorem mem_orderedInsertDesc (a x : Order) (l : List Order) :
    x ∈ orderedInsertDesc a l ↔ x ∈ a :: l := by
  induction l with
  | nil => simp [orderedInsertDesc]
  | cons b t ih =>
    by_cases h : newerFirst a b = true
    · simp [orderedInsertDesc, h]
    · simp only [orderedInsertDesc, if_neg h, List.mem_cons, ih]
      tauto

theorem mem_sortNewestFirst (x : Order) (l : List Order) :
    x ∈ sortNewestFirst l ↔ x ∈ l := by
  induction l with
  | nil => simp [sortNewestFirst]
  | cons a t ih =>
    simp [sortNewestFirst, mem_orderedInsertDesc, ih]

theorem pairwise_orderedInsertDesc (a : Order) (l : List Order)
    (hl : l.Pairwise (fun x y => newerFirst x y = true)) :
    (orderedInsertDesc a l).Pairwise (fun x y => newerFirst x y = true) := by
  induction l with
  | nil => simp [orderedInsertDesc]
  | cons b t ih =>
    rw [List.pairwise_cons] at hl
    obtain ⟨hb, ht⟩ := hl
    by_cases h : newerFirst a b = true
    · simp only [orderedInsertDesc, if_pos h]
      rw [List.pairwise_cons]
      refine ⟨?_, List.pairwise_cons.mpr ⟨hb, ht⟩⟩
      intro x hx
      rcases List.mem_cons.mp hx with rfl | hx'
      · exact h
      · exact newerFirst_trans h (hb x hx')
    · have hba : newerFirst b a = true := (newerFirst_total a b).resolve_left h
      simp only [orderedInsertDesc, if_neg h]
      rw [List.pairwise_cons]
      refine ⟨?_, ih ht⟩
      intro x hx
      rcases List.mem_cons.mp ((mem_orderedInsertDesc a x t).mp hx) with rfl | hx'
      · exact hba
      · exact hb x hx'

theorem pairwise_sortNewestFirst (l : List Order) :
    (sortNewestFirst l).Pairwise (fun x y => newerFirst x y = true) := by
  induction l with
  | nil => simp [sortNewestFirst]
  | cons a t ih => exact pairwise_orderedInsertDesc a _ ih

theorem map_cloneOrder (l : List Order) : l.map cloneOrder = l := by
  have h : cloneOrder = id := funext cloneOrder_eq
  simp [h]

/-- Every item `List` returns comes from the filtered snapshot: it passed the
filter chain, and the item list inherits the sort order (as a sublist of the
sorted list). -/
theorem list_items_spec (s : InMemoryService) (opts : ListOptions)
    (res : ListResult) (h : s.List none opts = Except.ok res) :
    (∀ x ∈ res.items, keepOrder opts x = true) ∧
    res.items.Pairwise (fun a b => b.createdAt ≤ a.createdAt) := by
  have hsorted := pairwise_sortNewestFirst
      (((s.orders.map Prod.snd)).filter (keepOrder opts))
  simp only [InMemoryService.List] at h
  set sorted := sortNewestFirst ((s.orders.map Prod.snd).filter (keepOrder opts))
    with hsortedDef
  set p := (if opts.page ≤ 0 then 1 else opts.page) with hp
  set q := (if opts.pageSize ≤ 0 then 10 else opts.pageSize) with hq
  split at h
  · injection h with h
    subst h
    simp
  · injection h with h
    subst h
    simp only [map_cloneOrder]
    constructor
    · intro x hx
      have hx' : x ∈ sorted :=
        List.mem_of_mem_drop (List.mem_of_mem_take hx)
      exact (List.mem_filter.mp ((mem_sortNewestFirst x _).mp hx')).2
    · have hsub : ((sorted.drop ((p - 1) * q).toNat).take
          (((p - 1) * q + q) ⊓ (sorted.length : Int) - (p - 1) * q).toNat).Sublist
          sorted :=
        (List.take_sublist _ _).trans (List.drop_sublist _ _)
      refine (List.Pairwise.sublist hsub hsorted).imp ?_
      intro a b hab
      simpa [newerFirst] using hab

/-! ## C6: sort order of List -/

/-- C6 (amended).  The items returned by `List` are pairwise sorted by
`createdAt` descending (newest first).  The comparator passed to the sort
looks only at `createdAt`, so no tie-break on `id` is applied for equal
timestamps (see the counterexample below). -/
theorem list_sorted_newest_first (s : InMemoryService) (opts : ListOptions)
    (res : ListResult) (h : s.List none opts = Except.ok res) :
    res.items.Pairwise (fun a b => b.createdAt ≤ a.createdAt) :=
  (list_items_spec s opts res h).2

/-- C6 counterexample.  On a store holding two surviving orders with equal
`createdAt` where the larger id precedes the smaller one in the snapshot,
`List` returns the larger id first: the claimed deterministic tie-break by
id ascending does not happen (the comparator never consults `id`). -/
theorem list_tiebreak_counterexample :
    cexState.List none cexOpts = Except.ok cexRes ∧
    cexOrderB.createdAt = cexOrderA.createdAt ∧
    cexOrderA.id < cexOrderB.id ∧
    cexOrderA.deletedAt = none ∧ cexOrderB.deletedAt = none ∧
    cexRes.items.map Order.id = ["b", "a"] :=
  ⟨rfl, rfl, by simp [String.lt_iff_toList_lt, cexOrderA, cexOrderB]; decide,
   rfl, rfl, by decide⟩

theorem list_sorted_newest_first_witness :
    cexState.List none cexOpts = Except.ok cexRes ∧
    cexRes.items.Pairwise (fun a b => b.createdAt ≤ a.createdAt) :=
  ⟨rfl, list_sorted_newest_first cexState cexOpts cexRes rfl⟩

/-! ## C7: pagination -/

/-- C7.  At the failing input — a store with two surviving orders, `page = 2`
(in range of normalization, beyond range of data) and `pageSize = 0`
(normalized to 10) — `List` returns an empty item list with the correct
`totalItems = 2` but `totalPages = 0`, whereas
`ceil(totalItems / pageSize) = (2 + 10 - 1) / 10 = 1`: the out-of-range
early return builds its result with only `Items` and `TotalItems` set. -/
theorem list_beyond_range_totalPages_bug :
    cexState.List none { status := none, customerId := none,
                         createFrom := none, createTo := none,
                         page := 2, pageSize := 0 } =
      Except.ok { items := [], page := 0, pageSize := 0, totalItems := 2,
                  totalPages := 0 } ∧
    ((2 : Int) + 10 - 1) / 10 = 1 :=
  ⟨rfl, by decide⟩

/-! ## C8: soft-delete visibility -/

/-- C8.  For a stored order whose `deletedAt` is set: `Get` without
`includeDeleted` fails not-found, `Get` with `includeDeleted = true` returns
a (defensive) copy of the order, `List` never includes it whatever the
filters, and `Get` on an absent id always fails not-found. -/
theorem soft_delete_visibility (s : InMemoryService) (id : String)
    (order : Order) (hlook : s.orders.lookup id = some order)
    (hdel : order.deletedAt.isSome = true) :
    s.Get none id false = Except.error Err.notFound ∧
    s.Get none id true = Except.ok order ∧
    (∀ opts res, s.List none opts = Except.ok res → order ∉ res.items) ∧
    (∀ id', s.orders.lookup id' = none →
        ∀ b, s.Get none id' b = Except.error Err.notFound) := by
  refine ⟨?_, ?_, ?_, ?_⟩
  · simp [InMemoryService.Get, hlook, hdel]
  · simp [InMemoryService.Get, hlook, hdel, cloneOrder_eq]
  · intro opts res h hmem
    have hkeep := (list_items_spec s opts res h).1 order hmem
    simp [keepOrder, hdel] at hkeep
  · intro id' hlook' b
    simp [InMemoryService.Get, hlook']

theorem soft_delete_visibility_witness :
    delState.orders.lookup "d1" = some delOrder ∧
    delOrder.deletedAt.isSome = true ∧
    (delState.Get none "d1" false = Except.error Err.notFound ∧
     delState.Get none "d1" true = Except.ok delOrder ∧
     (∀ opts res, delState.List none opts = Except.ok res →
        delOrder ∉ res.items) ∧
     (∀ id', delState.orders.lookup id' = none →
        ∀ b, delState.Get none id' b = Except.error Err.notFound)) :=
  ⟨by decide, by decide,
   soft_delete_visibility delState "d1" delOrder (by decide) (by decide)⟩
